import Mathlib

/-!
Verification of the resumable, credential-rotating upload pipeline of
`bot.py` (Telegram archive-to-gallery bot).

The development shallowly embeds the parts of `bot.py` that the claims are
about:

* the credential pool (`initialize_imgbb_keys`, `get_current_imgbb_key`,
  `mark_key_as_valid`, `mark_key_as_failed`, `rotate_to_next_key`, and the
  key-adding path of `/addkey`), with the global state of the pool gathered in
  `PoolState`;
* the per-attempt result classification of `upload_to_imgbb`
  (`classifyAttempt`, `upload_to_imgbb`), over an abstract model of an HTTP
  attempt (`Attempt`, `RespBody`);
* the credential solicitation `request_new_key`, over an abstract list of
  incoming replies, together with the `active_listeners` map (modelled as a
  list of chat ids);
* the archive member-name guard `is_safe_member_name`, the image filename
  filter `is_image_filename`, and the member collection loop of
  `handle_container` (`collectZipSources`);
* the upload orchestrator `process_and_upload_images`: the sort of the
  batch by case-insensitive name (`sortByName`), the per-item loop
  (`runSeg`), and the suspend/solicit/resume cycle (`runLoopAfter`), with
  decoding (`validar_y_reparar_imagen`) and the per-item upload outcome
  abstracted into an environment `Env`.

Python string primitives used by the source (`str.lower`, `str.split`,
`str.strip`, `in`, `startswith`, `endswith`, list indexing) are given
executable counterparts over `List Char` so that every definition can be
evaluated by the kernel on concrete inputs.  `Char.toLower` matches
the Python `str.lower` of on the ASCII range, which is all that the source relies on
(keyword matching and filename extensions are ASCII).
-/

/-! ## String helpers (executable counterparts of Python string primitives) -/

/-- Split a character list at every occurrence of `sep` (Python `str.split(sep)`);
`splitChar sep []` is `[[]]` exactly as `"".split(sep)` is `[""]`. -/
def splitChar (sep : Char) : List Char → List (List Char)
  | [] => [[]]
  | c :: rest =>
    let r := splitChar sep rest
    if c == sep then [] :: r
    else
      match r with
      | [] => [[c]]
      | g :: gs => (c :: g) :: gs

/-- Characters removed by Python `str.strip()` (the whitespace the source can meet). -/
def isSpaceChar (c : Char) : Bool := c == ' ' || c == '\t' || c == '\n' || c == '\r'

/-- Python `str.strip()`: drop whitespace from both ends. -/
def stripChars (l : List Char) : List Char :=
  ((l.dropWhile isSpaceChar).reverse.dropWhile isSpaceChar).reverse

/-- Python `str.lower()` (ASCII range). -/
def lowerStr (s : String) : String := String.mk (s.data.map Char.toLower)

/-- Python `needle in hay` on strings: `needle` occurs as a contiguous segment. -/
def segIn (needle : List Char) : List Char → Bool
  | [] => needle.isEmpty
  | c :: rest => needle.isPrefixOf (c :: rest) || segIn needle rest

/-- Python `hay.__contains__(sub)` for strings. -/
def strContains (hay sub : String) : Bool := segIn sub.data hay.data

/-- Python `s.startswith(p)`. -/
def strStartsWith (s p : String) : Bool := p.data.isPrefixOf s.data

/-- Python `s.endswith(p)`. -/
def strEndsWith (s p : String) : Bool := p.data.isSuffixOf s.data

/-- Lexicographic comparison of character lists by code point, i.e. Python
`str.__le__` on the underlying strings. -/
def charsLe : List Char → List Char → Bool
  | [], _ => true
  | _ :: _, [] => false
  | a :: as, b :: bs =>
    if a < b then true
    else if b < a then false
    else charsLe as bs

theorem charsLe_total (x y : List Char) : charsLe x y = true ∨ charsLe y x = true := by
  induction x generalizing y with
  | nil => left; rfl
  | cons a as ih =>
    cases y with
    | nil => right; rfl
    | cons b bs =>
      by_cases h1 : a < b
      · left; simp [charsLe, h1]
      · by_cases h2 : b < a
        · right; simp [charsLe, h2]
        · rcases ih bs with h | h
          · left; simp [charsLe, h1, h2, h]
          · right; simp [charsLe, h1, h2, h]

theorem charsLe_trans (x y z : List Char) (h1 : charsLe x y = true) (h2 : charsLe y z = true) :
    charsLe x z = true := by
  induction x generalizing y z with
  | nil => rfl
  | cons a as ih =>
    cases y with
    | nil => simp [charsLe] at h1
    | cons b bs =>
      cases z with
      | nil => simp [charsLe] at h2
      | cons c cs =>
        simp only [charsLe] at h1 h2 ⊢
        by_cases hab : a < b
        · by_cases hbc : b < c
          · simp [lt_trans hab hbc]
          · by_cases hcb : c < b
            · simp [charsLe, hbc, hcb] at h2
            · have hbceq : b = c := le_antisymm (not_lt.mp hcb) (not_lt.mp hbc)
              subst hbceq
              simp [hab]
        · by_cases hba : b < a
          · simp [charsLe, hab, hba] at h1
          · have habeq : a = b := le_antisymm (not_lt.mp hba) (not_lt.mp hab)
            subst habeq
            by_cases hbc : a < c
            · simp [hbc]
            · by_cases hcb : c < a
              · simp [charsLe, hbc, hcb] at h2
              · simp only [charsLe, hab, hbc, hcb, if_false] at h1 h2 ⊢
                exact ih bs cs h1 h2

/-! ## Credential pool (`bot.py` lines 54-224, 326-329, 744-755, 803-817)

The global pool state (`current_imgbb_keys`, `current_key_index`,
`valid_keys`, `failed_keys`) is gathered into a `PoolState` record; the
functions mutating it become state-passing functions. -/

structure PoolState where
  keys : List String
  index : Nat
  valid : Finset String
  failed : Finset String
deriving DecidableEq

/-- The process-start state of the pool globals. -/
def initState : PoolState := ⟨[], 0, ∅, ∅⟩

/-- `IMGBB_API_KEY.split(",")`, each part stripped, empty parts dropped. -/
def splitKeys (envVar : String) : List String :=
  ((splitChar ',' envVar.data).map (fun g => String.mk (stripChars g))).filter
    (fun x => !(x = ""))

/-- `initialize_imgbb_keys` (lines 167-182): reset the pool from the
environment variable; all parsed keys are initially assumed valid. -/
def initialize_imgbb_keys (envVar : String) : PoolState :=
  if envVar = "" then ⟨[], 0, ∅, ∅⟩
  else ⟨splitKeys envVar, 0, (splitKeys envVar).toFinset, ∅⟩

/-- `mark_key_as_valid` (lines 202-207). -/
def mark_key_as_valid (s : PoolState) (k : String) : PoolState :=
  { s with valid := insert k s.valid, failed := s.failed.erase k }

/-- `mark_key_as_failed` (lines 209-214). -/
def mark_key_as_failed (s : PoolState) (k : String) : PoolState :=
  { s with failed := insert k s.failed, valid := s.valid.erase k }

/-- The key-adding path (`/addkey` handler lines 749-750 and 815-816, and
the solicitation resume lines 327-329): append to `current_imgbb_keys`,
then `mark_key_as_valid`. -/
def addPoolKey (s : PoolState) (k : String) : PoolState :=
  mark_key_as_valid { s with keys := s.keys ++ [k] } k

/-- `rotate_to_next_key` (lines 216-224). -/
def rotate_to_next_key (s : PoolState) : PoolState :=
  if s.keys = [] then s
  else { s with index := (s.index + 1) % s.keys.length }

/-- `get_current_imgbb_key` (lines 184-200): prefer a key that is marked
valid and not failed; otherwise fall back to round-robin at the cursor. -/
def get_current_imgbb_key (s : PoolState) : String :=
  if s.keys = [] then ""
  else
    match s.keys.filter (fun x => decide (x ∈ s.valid) && decide (x ∉ s.failed)) with
    | [] => s.keys.getD (if s.keys.length ≤ s.index then 0 else s.index) ""
    | x :: _ => x

/-- The pool operations reachable through the call sites in the source. -/
inductive PoolOp where
  | init (envVar : String)
  | markValid (k : String)
  | markFailed (k : String)
  | addKey (k : String)
  | rotate
deriving DecidableEq, Repr

def applyOp (s : PoolState) : PoolOp → PoolState
  | PoolOp.init e => initialize_imgbb_keys e
  | PoolOp.markValid k => mark_key_as_valid s k
  | PoolOp.markFailed k => mark_key_as_failed s k
  | PoolOp.addKey k => addPoolKey s k
  | PoolOp.rotate => rotate_to_next_key s

/-- Pool state reached from process start after a sequence of operations. -/
def runOps (ops : List PoolOp) : PoolState := ops.foldl applyOp initState

/-- Every key in the pool list is tracked as valid or failed. -/
def covered (s : PoolState) : Prop := ∀ x ∈ s.keys, x ∈ s.valid ∨ x ∈ s.failed

theorem covered_applyOp (s : PoolState) (op : PoolOp) (h : covered s) :
    covered (applyOp s op) := by
  cases op with
  | init e =>
    intro x hx
    simp only [applyOp, initialize_imgbb_keys] at hx ⊢
    by_cases he : e = ""
    case pos =>
      simp only [if_pos he] at hx
      simp at hx
    case neg =>
      simp only [if_neg he] at hx ⊢
      left
      simpa [List.mem_toFinset] using hx
  | markValid k =>
    intro x hx
    simp only [applyOp, mark_key_as_valid] at hx ⊢
    rcases h x hx with hv | hf
    · left; exact Finset.mem_insert_of_mem hv
    · by_cases hxk : x = k
      · left; simp [hxk]
      · right; exact Finset.mem_erase.mpr ⟨hxk, hf⟩
  | markFailed k =>
    intro x hx
    simp only [applyOp, mark_key_as_failed] at hx ⊢
    rcases h x hx with hv | hf
    · by_cases hxk : x = k
      · right; simp [hxk]
      · left; exact Finset.mem_erase.mpr ⟨hxk, hv⟩
    · right; exact Finset.mem_insert_of_mem hf
  | addKey k =>
    intro x hx
    simp only [applyOp, addPoolKey, mark_key_as_valid] at hx ⊢
    rcases List.mem_append.mp hx with hx1 | hx2
    · rcases h x hx1 with hv | hf
      · left; exact Finset.mem_insert_of_mem hv
      · by_cases hxk : x = k
        · left; simp [hxk]
        · right; exact Finset.mem_erase.mpr ⟨hxk, hf⟩
    · left
      simp only [List.mem_singleton] at hx2
      simp [hx2]
  | rotate =>
    intro x hx
    simp only [applyOp, rotate_to_next_key] at hx ⊢
    by_cases hk : s.keys = []
    · simp only [if_pos hk] at hx ⊢; exact h x hx
    · simp only [if_neg hk] at hx ⊢; exact h x hx

theorem runOps_covered (ops : List PoolOp) : covered (runOps ops) := by
  have hgen : ∀ s : PoolState, covered s → covered (ops.foldl applyOp s) := by
    induction ops with
    | nil => intro s hs; exact hs
    | cons op rest ih =>
      intro s hs
      exact ih (applyOp s op) (covered_applyOp s op hs)
  exact hgen initState (by intro x hx; simp [initState] at hx)

/-- When some key of the pool is not failed, `get_current_imgbb_key`
returns a key that is valid and not failed. -/
theorem get_current_not_failed (s : PoolState) (hcov : covered s)
    (k2 : String) (h1 : k2 ∈ s.keys) (h2 : k2 ∉ s.failed) :
    get_current_imgbb_key s ∈ s.valid ∧ get_current_imgbb_key s ∉ s.failed := by
  have hk2v : k2 ∈ s.valid := by
    rcases hcov k2 h1 with hv | hf
    · exact hv
    · exact absurd hf h2
  have hne : ¬ s.keys = [] := by
    intro hnil
    rw [hnil] at h1
    simp at h1
  have hk2f : k2 ∈ s.keys.filter (fun x => decide (x ∈ s.valid) && decide (x ∉ s.failed)) := by
    refine List.mem_filter.mpr ⟨h1, ?_⟩
    simp [hk2v, h2]
  unfold get_current_imgbb_key
  rw [if_neg hne]
  cases hf : s.keys.filter (fun x => decide (x ∈ s.valid) && decide (x ∉ s.failed)) with
  | nil =>
    rw [hf] at hk2f
    simp at hk2f
  | cons y ys =>
    have hy : y ∈ s.keys.filter (fun x => decide (x ∈ s.valid) && decide (x ∉ s.failed)) := by
      rw [hf]; exact List.mem_cons_self y ys
    have := List.mem_filter.mp hy
    simp only [Bool.and_eq_true, decide_eq_true_eq] at this
    exact ⟨this.2.1, this.2.2⟩

/-- C5. For every pool state reachable by the pool operations, once a
credential has been marked failed, `get_current_imgbb_key` never returns
it while at least one non-failed credential exists in the pool. -/
theorem C5_failed_never_selected (ops : List PoolOp) (k k2 : String)
    (hk : k ∈ (runOps ops).failed)
    (hk2 : k2 ∈ (runOps ops).keys) (hk2f : k2 ∉ (runOps ops).failed) :
    ¬ get_current_imgbb_key (runOps ops) = k := by
  intro heq
  have h := get_current_not_failed (runOps ops) (runOps_covered ops) k2 hk2 hk2f
  rw [heq] at h
  exact h.2 hk

/-- Witness for C5: with keys `a`, `b` and `a` marked failed, the selected
key is not `a`. -/
theorem C5_failed_never_selected_witness :
    ¬ get_current_imgbb_key
        (runOps [PoolOp.init "aaaaaaaaaa,bbbbbbbbbb", PoolOp.markFailed "aaaaaaaaaa"]) =
      "aaaaaaaaaa" :=
  C5_failed_never_selected
    [PoolOp.init "aaaaaaaaaa,bbbbbbbbbb", PoolOp.markFailed "aaaaaaaaaa"]
    "aaaaaaaaaa" "bbbbbbbbbb" (by decide) (by decide) (by decide)

theorem disjoint_applyOp (s : PoolState) (op : PoolOp)
    (h : Disjoint s.valid s.failed) : Disjoint (applyOp s op).valid (applyOp s op).failed := by
  cases op with
  | init e =>
    simp only [applyOp, initialize_imgbb_keys]
    by_cases he : e = ""
    · simp only [if_pos he]
      exact Finset.disjoint_empty_left _
    · simp only [if_neg he]
      exact Finset.disjoint_empty_right _
  | markValid k =>
    simp only [applyOp, mark_key_as_valid]
    rw [Finset.disjoint_left]
    intro a ha hmem
    rcases Finset.mem_insert.mp ha with rfl | hav
    · exact (Finset.mem_erase.mp hmem).1 rfl
    · exact Finset.disjoint_left.mp h hav (Finset.mem_of_mem_erase hmem)
  | markFailed k =>
    simp only [applyOp, mark_key_as_failed]
    rw [Finset.disjoint_left]
    intro a ha hmem
    rcases Finset.mem_insert.mp hmem with rfl | haf
    · exact (Finset.mem_erase.mp ha).1 rfl
    · exact Finset.disjoint_left.mp h (Finset.mem_of_mem_erase ha) haf
  | addKey k =>
    simp only [applyOp, addPoolKey, mark_key_as_valid]
    rw [Finset.disjoint_left]
    intro a ha hmem
    rcases Finset.mem_insert.mp ha with rfl | hav
    · exact (Finset.mem_erase.mp hmem).1 rfl
    · exact Finset.disjoint_left.mp h hav (Finset.mem_of_mem_erase hmem)
  | rotate =>
    simp only [applyOp, rotate_to_next_key]
    by_cases hk : s.keys = []
    · simp only [if_pos hk]; exact h
    · simp only [if_neg hk]; exact h

/-- C10. After every sequence of credential-pool operations, the sets
`valid_keys` and `failed_keys` are disjoint: no credential is
simultaneously marked valid and failed. -/
theorem C10_valid_failed_disjoint (ops : List PoolOp) :
    Disjoint (runOps ops).valid (runOps ops).failed := by
  have hgen : ∀ s : PoolState, Disjoint s.valid s.failed →
      Disjoint (ops.foldl applyOp s).valid (ops.foldl applyOp s).failed := by
    induction ops with
    | nil => intro s hs; exact hs
    | cons op rest ih =>
      intro s hs
      exact ih (applyOp s op) (disjoint_applyOp s op hs)
  exact hgen initState (by simp [initState])

/-! ## Upload result classification (`upload_to_imgbb`, lines 111-165)

One HTTP attempt is abstracted as an `Attempt`: either a response with a
status code and a body, a read timeout, or some other exception raised by
the request.  The body model records whether `r.json()` succeeds, the
lower-level `error.message` field extracted by the chained `.get` calls
(the empty string when any link of the chain is missing), the `success`
flag, and the `data.url` field if present. -/

structure RespBody where
  parseOk : Bool
  errMsg : String
  succ : Bool
  dataUrl : Option String
deriving DecidableEq

inductive Attempt where
  | resp (status : Nat) (body : RespBody)
  | readTimeout
  | exn (msg : String)
deriving DecidableEq

/-- The result dictionary of `upload_to_imgbb`. -/
structure Outcome where
  success : Bool
  url : String
  error : String
  key_valid : Bool
deriving DecidableEq

/-- The credential keywords of line 141. -/
def keywords : List String := ["key", "invalid", "expired", "missing"]

/-- `any(word in error_message for word in [...])` with `error_message`
already lowercased (line 140-141). -/
def credKeywordHit (msg : String) : Bool :=
  keywords.any (fun w => strContains (lowerStr msg) w)

/-- Classification of a single attempt (lines 134-163): the 400 keyword
check, then `raise_for_status` with the `HTTPError` handler, then the
success-envelope check.  `none` means the attempt hit a read timeout and
the loop retries. -/
def classifyAttempt (a : Attempt) : Option Outcome :=
  match a with
  | Attempt.readTimeout => none
  | Attempt.exn m => some ⟨false, "", "Error subiendo imagen: " ++ m, true⟩
  | Attempt.resp status body =>
    if status = 400 && body.parseOk && credKeywordHit body.errMsg then
      some ⟨false, "", "API key inválida o expirada", false⟩
    else if 400 ≤ status && status < 600 then
      if status = 400 then some ⟨false, "", "HTTP Error: 400", false⟩
      else some ⟨false, "", "HTTP Error: " ++ toString status, true⟩
    else if body.parseOk then
      if body.succ then
        match body.dataUrl with
        | some u => some ⟨true, u, "", true⟩
        | none => some ⟨false, "", "Error en upload", true⟩
      else some ⟨false, "", "Error en upload", true⟩
    else some ⟨false, "", "Error subiendo imagen: json", true⟩

/-- The retry loop of lines 132-163: up to `n` attempts, retrying only on
read timeouts, with the exhausted-timeout result of line 157. -/
def runAttempts : List Attempt → Nat → Outcome
  | _, 0 => ⟨false, "", "Error desconocido", true⟩
  | [], _ + 1 => ⟨false, "", "Error desconocido", true⟩
  | a :: rest, n + 1 =>
    match classifyAttempt a with
    | some o => o
    | none =>
      if n = 0 then ⟨false, "", "Timeout agotado tras varios intentos", true⟩
      else runAttempts rest n

/-- `upload_to_imgbb` over the abstract attempt trace (retries = 3),
including the missing-key early return of lines 116-117. -/
def upload_to_imgbb (apiKey : String) (attempts : List Attempt) : Outcome :=
  if apiKey = "" then ⟨false, "", "No API key provided", false⟩
  else runAttempts attempts 3

/-- Counterexample to C2: a 400 response whose error message contains none
of the credential keywords is still classified with `key_valid = false`
(the `HTTPError` handler at lines 158-160 fires for every 400), while the
claim says every keyword-free 4xx/5xx is an item-level error
(`key_valid = true`). -/
theorem C2_counterexample :
    credKeywordHit "rate limit reached" = false ∧
      Option.map Outcome.key_valid
          (classifyAttempt (Attempt.resp 400 ⟨true, "rate limit reached", false, none⟩)) =
        some false := by
  decide

/-- C2 (amended): for every attempt that produces a final classification,
`key_valid = false` holds exactly when the attempt was a response with
status 400 — whether or not the error message contains a credential
keyword; every non-400 4xx/5xx, exhausted timeout and other exception is
item-level (`key_valid = true`). -/
theorem C2_amended_key_valid_iff_400 (a : Attempt) (o : Outcome)
    (h : classifyAttempt a = some o) :
    o.key_valid = false ↔ ∃ body, a = Attempt.resp 400 body := by
  cases a with
  | readTimeout => simp [classifyAttempt] at h
  | exn m =>
    simp only [classifyAttempt] at h
    cases h
    simp
  | resp status body =>
    simp only [classifyAttempt] at h
    split at h
    case isTrue hc =>
      cases h
      simp only [Bool.and_eq_true, decide_eq_true_eq] at hc
      simp [hc.1.1]
    case isFalse hc =>
      split at h
      case isTrue hc2 =>
        split at h
        case isTrue hs => cases h; simp [hs]
        case isFalse hs => cases h; simp [hs]
      case isFalse hc2 =>
        have hs : ¬ status = 400 := by
          intro hs
          subst hs
          simp at hc2
        split at h
        · split at h
          · split at h
            · cases h; simp [hs]
            · cases h; simp [hs]
          · cases h; simp [hs]
        · cases h; simp [hs]

/-- Witness for C2 (amended): a keyword-free 400 is classified with
`key_valid = false`. -/
theorem C2_amended_key_valid_iff_400_witness :
    ((⟨false, "", "HTTP Error: 400", false⟩ : Outcome).key_valid = false ↔
      ∃ body, Attempt.resp 400 ⟨false, "x", false, none⟩ = Attempt.resp 400 body) :=
  C2_amended_key_valid_iff_400 (Attempt.resp 400 ⟨false, "x", false, none⟩)
    ⟨false, "", "HTTP Error: 400", false⟩ (by decide)

/-- A classified attempt with an invalid credential never reports success
(supports the hypotheses of C3 below: `upload_to_imgbb` results with
`key_valid = false` always have `success = false`). -/
theorem classify_key_invalid_not_success (a : Attempt) (o : Outcome)
    (h : classifyAttempt a = some o) (hkv : o.key_valid = false) :
    o.success = false := by
  cases a with
  | readTimeout => simp [classifyAttempt] at h
  | exn m => cases h; rfl
  | resp status body =>
    simp only [classifyAttempt] at h
    split at h
    · cases h; rfl
    · split at h
      · split at h
        · cases h; rfl
        · cases h; rfl
      · split at h
        · split at h
          · split at h
            · cases h; simp at hkv
            · cases h; rfl
          · cases h; rfl
        · cases h; rfl

theorem classify_key_invalid_not_success_witness :
    (⟨false, "", "HTTP Error: 400", false⟩ : Outcome).success = false :=
  classify_key_invalid_not_success (Attempt.resp 400 ⟨false, "x", false, none⟩)
    ⟨false, "", "HTTP Error: 400", false⟩ (by decide) (by decide)

/-! ## Credential solicitation (`request_new_key`, lines 226-257)

An incoming event on the `active_listeners` bridge is either a reply text
set by `handle_text_messages` (lines 731-770) before the event fires, or a
timeout of the `asyncio.wait_for`.  The map `active_listeners` is modelled
by the list of chat ids having a pending entry; each solicitation round
consumes one element of the reply trace, an empty trace standing for a
wait that never gets an answer (timeout). -/

inductive KeyReply where
  | timeout
  | msg (s : String)
deriving DecidableEq

/-- `del active_listeners[chat_id]` guarded by the membership test of the
`finally` block (lines 254-257). -/
def removeListener (chat : Nat) (l : List Nat) : List Nat :=
  l.filter (fun c => !(c == chat))

/-- `request_new_key`: register the listener, wait for one reply, return
`none` on `/cancel` or timeout, re-prompt recursively on a reply shorter
than 10 characters, and drop the listener entry in `finally` on every exit
path.  Returns the solicited key (if any) and the listener map after the
call. -/
def request_new_key : Nat → List KeyReply → List Nat → Option String × List Nat
  | chat, replies, listeners =>
    let l1 := chat :: removeListener chat listeners
    match replies with
    | [] => (none, removeListener chat l1)
    | KeyReply.timeout :: _ => (none, removeListener chat l1)
    | KeyReply.msg s :: rest =>
      if lowerStr s = "/cancel" then (none, removeListener chat l1)
      else if 10 ≤ s.length then (some s, removeListener chat l1)
      else
        let res := request_new_key chat rest l1
        (res.1, removeListener chat res.2)

theorem not_mem_removeListener (chat : Nat) (l : List Nat) :
    chat ∉ removeListener chat l := by
  intro h
  have := List.mem_filter.mp h
  simp at this

/-- C8. On every exit path of `request_new_key` — credential returned,
cancel token, timeout, including the recursive re-prompt on a short
reply — the pending-listener entry for the requester is absent from the
listener map when the call returns. -/
theorem C8_no_listener_leak (chat : Nat) (replies : List KeyReply) (listeners : List Nat) :
    chat ∉ (request_new_key chat replies listeners).2 := by
  cases replies with
  | nil =>
    simp only [request_new_key]
    exact not_mem_removeListener chat _
  | cons r rest =>
    cases r with
    | timeout =>
      simp only [request_new_key]
      exact not_mem_removeListener chat _
    | msg s =>
      simp only [request_new_key]
      by_cases h1 : lowerStr s = "/cancel"
      · simp only [if_pos h1]
        exact not_mem_removeListener chat _
      · simp only [if_neg h1]
        by_cases h2 : 10 ≤ s.length
        · simp only [if_pos h2]
          exact not_mem_removeListener chat _
        · simp only [if_neg h2]
          exact not_mem_removeListener chat _

/-! ## Archive member-name safety (`is_safe_member_name`, lines 71-82, and
the member-collection loops of `handle_container`, lines 577-618)

`Path(name).parts` for a relative POSIX path is the `/`-split of the name
with empty and `"."` components dropped; the `".."` check is only ever
reached for names that do not start with a separator, where this model is
exact. -/

/-- `Path(name).parts` membership model for the `".."` check (line 76). -/
def pathParts (name : String) : List String :=
  ((splitChar '/' name.data).map String.mk).filter (fun s => !(s = "") && !(s = "."))

/-- `is_safe_member_name` (lines 71-82). -/
def is_safe_member_name (name : String) : Bool :=
  if name = "" then false
  else if strStartsWith name "/" || strStartsWith name "\\" then false
  else if (pathParts name).contains ".." then false
  else if name.data.contains ':' && (2 ≤ name.length && name.data.get? 1 == some ':') then false
  else if name.data.contains '\\' then false
  else true

/-- `is_image_filename` (lines 68-69). -/
def is_image_filename (name : String) : Bool :=
  [".jpg", ".jpeg", ".png", ".gif", ".webp"].any (fun ext => strEndsWith (lowerStr name) ext)

/-- The ZIP branch of `handle_container` (lines 577-590): file members
(names not ending in `/`), each kept only if its name passes
`is_safe_member_name` and then `is_image_filename`.  The 7Z and TAR
branches apply the same two guards. -/
def collectZipSources (entries : List (String × String)) : List (String × String) :=
  ((entries.filter (fun e => !(strEndsWith e.1 "/"))).filter
      (fun e => is_safe_member_name e.1)).filter
    (fun e => is_image_filename e.1)

/-- A drive prefix in the sense of line 78: a `:` as the second character. -/
def drivePrefixed (name : String) : Bool :=
  2 ≤ name.length && name.data.get? 1 == some ':'

/-- A name accepted by `is_safe_member_name` satisfies none of the
rejection conditions. -/
theorem is_safe_true_conditions (name : String) (h : is_safe_member_name name = true) :
    (¬ name = "") ∧ (strStartsWith name "/" || strStartsWith name "\\") = false ∧
      (pathParts name).contains ".." = false ∧
      (name.data.contains ':' && (2 ≤ name.length && name.data.get? 1 == some ':')) = false ∧
      name.data.contains '\\' = false := by
  unfold is_safe_member_name at h
  split at h
  · cases h
  next h1 =>
    split at h
    · cases h
    next h2 =>
      split at h
      · cases h
      next h3 =>
        split at h
        · cases h
        next h4 =>
          split at h
          · cases h
          next h5 =>
            exact ⟨h1, by simpa using h2, by simpa using h3, by simpa using h4,
              by simpa using h5⟩

/-- C9. Every archive member name that is empty, contains a path-traversal
`".."` component, begins with an absolute-path separator, carries a drive
prefix, or contains a backslash is rejected by `is_safe_member_name`, and
consequently no such member survives the collection filter of
`handle_container`, so none reaches normalization or upload. -/
theorem C9_traversal_rejected (name : String) (entries : List (String × String))
    (p : String × String)
    (hbad : name = "" ∨ strStartsWith name "/" = true ∨ strStartsWith name "\\" = true ∨
      (pathParts name).contains ".." = true ∨ drivePrefixed name = true ∨
      name.data.contains '\\' = true)
    (hp : p ∈ collectZipSources entries) :
    is_safe_member_name name = false ∧ ¬ p.1 = name := by
  have hsafe : is_safe_member_name name = false := by
    cases hval : is_safe_member_name name with
    | false => rfl
    | true =>
      exfalso
      have hcond := is_safe_true_conditions name hval
      rcases hbad with hb | hb | hb | hb | hb | hb
      · exact hcond.1 hb
      · have := hcond.2.1
        rw [hb] at this
        simp at this
      · have := hcond.2.1
        rw [hb] at this
        simp at this
      · rw [hcond.2.2.1] at hb
        cases hb
      · have hcolon : name.data.get? 1 = some ':' := by
          unfold drivePrefixed at hb
          simp only [Bool.and_eq_true, beq_iff_eq] at hb
          exact hb.2
        have hmem : name.data.contains ':' = true := by
          have hm : ':' ∈ name.data := List.get?_mem hcolon
          simpa using hm
        have h4 := hcond.2.2.2.1
        unfold drivePrefixed at hb
        rw [hmem, hb] at h4
        simp at h4
      · rw [hcond.2.2.2.2] at hb
        cases hb
  refine ⟨hsafe, ?_⟩
  intro hpn
  have hmemsafe : is_safe_member_name p.1 = true := by
    unfold collectZipSources at hp
    have h1 := (List.mem_filter.mp hp).1
    exact (List.mem_filter.mp h1).2
  rw [hpn, hsafe] at hmemsafe
  cases hmemsafe

/-- Witness for C9: `a/../b.jpg` is rejected while a clean member passes
through the collection filter. -/
theorem C9_traversal_rejected_witness :
    is_safe_member_name "a/../b.jpg" = false ∧ ¬ ("ok.jpg", "data").1 = "a/../b.jpg" :=
  C9_traversal_rejected "a/../b.jpg" [("a/../b.jpg", "x"), ("ok.jpg", "data")]
    ("ok.jpg", "data")
    (Or.inr (Or.inr (Or.inr (Or.inl (by decide)))))
    (by decide)

/-! ## Upload orchestrator (`process_and_upload_images`, lines 262-355)

The batch is a list of `(name, payload)` pairs.  The call
`image_sources.sort(key=lambda x: x[0].lower())` is the Python sort by the
lowercased name (comparison by code point), modelled by insertion sort
under `nameLe`.

`validar_y_reparar_imagen` (decode, resize, re-encode; `None` on decode
failure) and the network behaviour of `upload_to_imgbb` under a given key
are abstracted into an environment `Env`: `normalize` maps a payload to
`some` normalized buffer or `none`, and `up` maps buffer, name and key to
the `Outcome` dictionary returned by `upload_to_imgbb`.

The `while idx < total` loop is split at its only suspension point: `runSeg`
processes items until the batch is exhausted or `upload_to_imgbb` reports
`key_valid = False`; `runLoopAfter` handles the solicitation result (one
entry of the reply trace per solicitation, `some k` for a delivered key,
`none` for `/cancel` or timeout — the `None` return of `request_new_key`)
and resumes the loop on the same item with the new key, reproducing the
`idx -= 1; continue` of lines 333-334.

Every `mark_key_as_valid` / `mark_key_as_failed` call is also recorded as
an `Event` carrying the call site and the value of
`consecutive_successes`, so that claims about when keys are promoted can
be stated over the event trace of the run. -/

/-- Case-insensitive comparison of the two names, i.e. the sort key
`x[0].lower()` of line 263. -/
def nameKeyLe (a b : String) : Prop :=
  charsLe (lowerStr a).data (lowerStr b).data = true

def nameLe (a b : String × String) : Prop := nameKeyLe a.1 b.1

instance : DecidableRel nameLe := fun a b =>
  instDecidableEqBool (charsLe (lowerStr a.1).data (lowerStr b.1).data) true

instance : IsTotal (String × String) nameLe :=
  ⟨fun a b => charsLe_total (lowerStr a.1).data (lowerStr b.1).data⟩

instance : IsTrans (String × String) nameLe :=
  ⟨fun a b c => charsLe_trans (lowerStr a.1).data (lowerStr b.1).data (lowerStr c.1).data⟩

/-- `image_sources.sort(key=lambda x: x[0].lower())` (line 263). -/
def sortByName (l : List (String × String)) : List (String × String) :=
  List.insertionSort nameLe l

theorem sortByName_sorted (l : List (String × String)) :
    (sortByName l).Pairwise nameLe :=
  List.sorted_insertionSort nameLe l

/-- The abstracted collaborators of the orchestrator: image normalization
and the per-(buffer, name, key) upload outcome. -/
structure Env where
  normalize : String → Option String
  up : String → String → String → Outcome

/-- One upload attempt for an item under a key: `validar_y_reparar_imagen`
followed (on success) by `upload_to_imgbb` (lines 285-291). -/
def attemptItem (env : Env) (key : String) (item : String × String) : Option Outcome :=
  match env.normalize item.2 with
  | none => none
  | some buf => some (env.up buf item.1 key)

/-- The key-lifecycle calls of one run, each with its call site and the
value of `consecutive_successes` at the call. -/
inductive Event where
  | markValidLoop (key : String) (consec : Nat)
  | markFailed (key : String)
  | markValidNew (key : String)
  | markValidFinal (key : String) (consec : Nat)
  | cancelled (idx : Nat)
deriving DecidableEq

/-- The saved job state `pending_key_requests[chat_id]` (lines 308-316):
the index to retry, and copies of the accumulated links and errors. -/
structure Snapshot where
  current_index : Nat
  processed_links : List (String × String)
  saved_errors : List String
deriving DecidableEq

/-- The observable result of one orchestrator run: the returned
`links, errors` pair, the pool state, the surviving
`pending_key_requests[chat_id]` entry, and the event trace. -/
structure RunResult where
  links : List (String × String)
  errors : List String
  pool : PoolState
  pending : Option Snapshot
  events : List Event
deriving DecidableEq

/-- Outcome of running the loop body until batch end or key failure. -/
inductive SegOut where
  | finished (links : List (String × String)) (errors : List String) (consec : Nat)
      (pool : PoolState) (pending : Option Snapshot) (events : List Event)
  | needKey (failIdx : Nat) (remaining : List (String × String))
      (links : List (String × String)) (errors : List String)
      (pool : PoolState) (pending : Option Snapshot) (events : List Event)
deriving DecidableEq

/-- The per-item loop of lines 280-349, run with the current key until the
batch is exhausted or an upload reports `key_valid = False`: decode
failure appends a `No pude procesar` error (line 287); success appends the
link, bumps `consecutive_successes` and promotes the key at ≥ 3 (lines
293-298); a key-valid failure appends an item error and resets the counter
(lines 300, 335-337); a key-invalid failure marks the key failed,
snapshots the job with `current_index` pointing at the failing item
(lines 302-316) and leaves the loop.  `idx` is the absolute index of the
head of `items` in the sorted batch. -/
def runSeg (env : Env) (key : String) :
    List (String × String) → Nat → List (String × String) → List String → Nat →
      PoolState → Option Snapshot → List Event → SegOut
  | [], _, links, errors, consec, pool, pend, events =>
    SegOut.finished links errors consec pool pend events
  | item :: rest, idx, links, errors, consec, pool, pend, events =>
    match attemptItem env key item with
    | none =>
      runSeg env key rest (idx + 1) links (errors ++ ["No pude procesar " ++ item.1])
        consec pool pend events
    | some r =>
      if r.success then
        if 3 ≤ consec + 1 then
          runSeg env key rest (idx + 1) (links ++ [(item.1, r.url)]) errors (consec + 1)
            (mark_key_as_valid pool key) pend
            (events ++ [Event.markValidLoop key (consec + 1)])
        else
          runSeg env key rest (idx + 1) (links ++ [(item.1, r.url)]) errors (consec + 1)
            pool pend events
      else if r.key_valid then
        runSeg env key rest (idx + 1) links (errors ++ [item.1 ++ ": " ++ r.error]) 0
          pool pend events
      else
        SegOut.needKey idx (item :: rest) links errors
          (mark_key_as_failed pool key)
          (some ⟨idx, links, errors⟩)
          (events ++ [Event.markFailed key])

/-- The solicitation / resume cycle around `runSeg`: on batch end, the
final promotion of lines 351-353; on `needKey`, one solicitation — a
delivered key is appended to the pool, marked valid (lines 326-329) and
the loop resumes on the failing item (lines 332-334), while `/cancel` or
timeout returns the results accumulated so far (lines 321-324). -/
def runLoopAfter (env : Env) : List (Option String) → String → SegOut → RunResult
  | replies, key, s =>
    match s with
    | SegOut.finished links errors consec pool pend events =>
      if 0 < consec then
        ⟨links, errors, mark_key_as_valid pool key, pend,
          events ++ [Event.markValidFinal key consec]⟩
      else ⟨links, errors, pool, pend, events⟩
    | SegOut.needKey failIdx remaining links errors pool pend events =>
      match replies with
      | Option.some k :: rest =>
        runLoopAfter env rest k
          (runSeg env k remaining failIdx links errors 0 (addPoolKey pool k) pend
            (events ++ [Event.markValidNew k]))
      | _ => ⟨links, errors, pool, pend, events ++ [Event.cancelled failIdx]⟩

/-- `process_and_upload_images` (lines 262-355): sort the batch, bail out
if the pool is empty or no key is selectable (lines 267-274), then run the
loop starting from index 0 with empty accumulators and the key returned by
`get_current_imgbb_key`. -/
def process_and_upload_images (env : Env) (sources : List (String × String))
    (pool : PoolState) (replies : List (Option String)) : RunResult :=
  if pool.keys = [] then ⟨[], [], pool, none, []⟩
  else
    let key := get_current_imgbb_key pool
    if key = "" then ⟨[], [], pool, none, []⟩
    else runLoopAfter env replies key (runSeg env key (sortByName sources) 0 [] [] 0 pool none [])

/-- `img_urls = [link for _, link in links]` (line 639): the published
gallery preserves the order of the success list. -/
def galleryUrls (links : List (String × String)) : List String :=
  links.map Prod.snd

/-! ## Observations on the event trace (claims C1 and C3) -/

def segEvents : SegOut → List Event
  | SegOut.finished _ _ _ _ _ ev => ev
  | SegOut.needKey _ _ _ _ _ _ ev => ev

def segLinks : SegOut → List (String × String)
  | SegOut.finished l _ _ _ _ _ => l
  | SegOut.needKey _ _ l _ _ _ _ => l

def segErrors : SegOut → List String
  | SegOut.finished _ e _ _ _ _ => e
  | SegOut.needKey _ _ _ e _ _ _ => e

/-- A `mark_key_as_valid` call made with fewer than 3 consecutive
successful uploads on the promoted key (`markValidNew` records the
promotion of a freshly solicited key, made before any upload with it). -/
def markValidBelow3 (e : Event) : Bool :=
  match e with
  | Event.markValidLoop _ n => n < 3
  | Event.markValidNew _ => true
  | Event.markValidFinal _ n => n < 3
  | _ => false

/-- An environment where decoding always succeeds and every upload
succeeds under every key. -/
def envAllOk : Env := ⟨fun p => some p, fun _ _ _ => ⟨true, "u", "", true⟩⟩

/-- Counterexample to C1: one batch of a single image that uploads
successfully — at batch end (line 352, `if consecutive_successes > 0`) the
current key is marked valid after a single consecutive success, so a
mark-valid call with fewer than 3 consecutive successes does occur. -/
theorem C1_counterexample :
    ((process_and_upload_images envAllOk [("a", "p")]
        (initialize_imgbb_keys "kkkkkkkkkk") []).events.any markValidBelow3) = true := by
  decide

/-- The promotion discipline the code actually implements: the mid-loop
promotion (line 297) requires at least 3 consecutive successes, the
end-of-batch promotion (line 352) requires at least 1, and a freshly
solicited key is promoted unconditionally (line 329). -/
def eventOK : Event → Prop
  | Event.markValidLoop _ n => 3 ≤ n
  | Event.markValidFinal _ n => 1 ≤ n
  | _ => True

theorem runSeg_eventOK (env : Env) (key : String) :
    ∀ (items : List (String × String)) (idx : Nat) (links : List (String × String))
      (errors : List String) (consec : Nat) (pool : PoolState) (pend : Option Snapshot)
      (events : List Event),
      (∀ x ∈ events, eventOK x) →
      ∀ x ∈ segEvents (runSeg env key items idx links errors consec pool pend events),
        eventOK x := by
  intro items
  induction items with
  | nil => intro idx links errors consec pool pend events hev; exact hev
  | cons item rest ih =>
    intro idx links errors consec pool pend events hev
    cases hat : attemptItem env key item with
    | none =>
      simp only [runSeg, hat]
      exact ih (idx + 1) links _ consec pool pend events hev
    | some r =>
      simp only [runSeg, hat]
      by_cases hs : r.success = true
      · rw [if_pos hs]
        by_cases h3 : 3 ≤ consec + 1
        · rw [if_pos h3]
          refine ih (idx + 1) _ errors (consec + 1) _ pend _ ?_
          intro x hx
          rcases List.mem_append.mp hx with hx1 | hx2
          · exact hev x hx1
          · simp only [List.mem_singleton] at hx2
            subst hx2
            exact h3
        · rw [if_neg h3]
          exact ih (idx + 1) _ errors (consec + 1) pool pend events hev
      · rw [if_neg hs]
        by_cases hkv : r.key_valid = true
        · rw [if_pos hkv]
          exact ih (idx + 1) links _ 0 pool pend events hev
        · rw [if_neg hkv]
          intro x hx
          simp only [segEvents] at hx
          rcases List.mem_append.mp hx with hx1 | hx2
          · exact hev x hx1
          · simp only [List.mem_singleton] at hx2
            subst hx2
            trivial

theorem runLoopAfter_eventOK (env : Env) :
    ∀ (replies : List (Option String)) (key : String) (s : SegOut),
      (∀ x ∈ segEvents s, eventOK x) →
      ∀ x ∈ (runLoopAfter env replies key s).events, eventOK x := by
  intro replies
  induction replies with
  | nil =>
    intro key s hs
    cases s with
    | finished l e c p pd ev =>
      simp only [runLoopAfter]
      by_cases hc : 0 < c
      · rw [if_pos hc]
        intro x hx
        rcases List.mem_append.mp hx with hx1 | hx2
        · exact hs x hx1
        · simp only [List.mem_singleton] at hx2
          subst hx2
          exact hc
      · rw [if_neg hc]
        exact hs
    | needKey fi rem l e p pd ev =>
      simp only [runLoopAfter]
      intro x hx
      rcases List.mem_append.mp hx with hx1 | hx2
      · exact hs x hx1
      · simp only [List.mem_singleton] at hx2
        subst hx2
        trivial
  | cons reply rest ih =>
    intro key s hs
    cases s with
    | finished l e c p pd ev =>
      simp only [runLoopAfter]
      by_cases hc : 0 < c
      · rw [if_pos hc]
        intro x hx
        rcases List.mem_append.mp hx with hx1 | hx2
        · exact hs x hx1
        · simp only [List.mem_singleton] at hx2
          subst hx2
          exact hc
      · rw [if_neg hc]
        exact hs
    | needKey fi rem l e p pd ev =>
      cases reply with
      | none =>
        simp only [runLoopAfter]
        intro x hx
        rcases List.mem_append.mp hx with hx1 | hx2
        · exact hs x hx1
        · simp only [List.mem_singleton] at hx2
          subst hx2
          trivial
      | some k =>
        simp only [runLoopAfter]
        refine ih k _ ?_
        refine runSeg_eventOK env k rem fi l e 0 _ pd _ ?_
        intro x hx
        rcases List.mem_append.mp hx with hx1 | hx2
        · exact hs x hx1
        · simp only [List.mem_singleton] at hx2
          subst hx2
          trivial

/-- C1 (amended): in every orchestrator run, a mid-loop `mark_key_as_valid`
for the current key happens only with at least 3 consecutive successful
uploads on it; however, at end of batch the current key is marked valid
already after a single consecutive success, and a freshly solicited
credential is marked valid immediately upon receipt, before any upload
with it. -/
theorem C1_amended_promotion_discipline (env : Env) (sources : List (String × String))
    (pool : PoolState) (replies : List (Option String)) (e : Event)
    (he : e ∈ (process_and_upload_images env sources pool replies).events) :
    eventOK e := by
  unfold process_and_upload_images at he
  by_cases h1 : pool.keys = []
  · rw [if_pos h1] at he
    simp at he
  · rw [if_neg h1] at he
    by_cases h2 : get_current_imgbb_key pool = ""
    · simp only [h2, if_pos rfl] at he
      simp at he
    · simp only [if_neg h2] at he
      exact runLoopAfter_eventOK env replies _ _
        (runSeg_eventOK env _ _ 0 [] [] 0 pool none [] (by intro x hx; simp at hx)) e he

/-- Witness for C1 (amended): the end-of-batch promotion event of a
single-success run satisfies the amended discipline. -/
theorem C1_amended_promotion_discipline_witness :
    eventOK (Event.markValidFinal "kkkkkkkkkk" 1) :=
  C1_amended_promotion_discipline envAllOk [("a", "p")]
    (initialize_imgbb_keys "kkkkkkkkkk") [] (Event.markValidFinal "kkkkkkkkkk" 1)
    (by decide)

/-- C3. When an upload fails with the credential-invalid classification,
the job snapshot stores the index of the failing item itself
(`current_index = idx - 1` after the increment, i.e. the cursor is not
advanced past it), the accumulated links are untouched, and after a new
credential is supplied the loop resumes on exactly the same item with the
same index, so no already-completed item is reordered and the triggering
item is never skipped. -/
theorem C3_snapshot_and_retry (env : Env) (key k : String) (item : String × String)
    (rest : List (String × String)) (idx : Nat) (links : List (String × String))
    (errors : List String) (consec : Nat) (pool : PoolState) (pend : Option Snapshot)
    (events : List Event) (moreReplies : List (Option String)) (r : Outcome)
    (hat : attemptItem env key item = some r) (hs : r.success = false)
    (hkv : r.key_valid = false) :
    runSeg env key (item :: rest) idx links errors consec pool pend events =
      SegOut.needKey idx (item :: rest) links errors (mark_key_as_failed pool key)
        (some ⟨idx, links, errors⟩) (events ++ [Event.markFailed key]) ∧
    runLoopAfter env (some k :: moreReplies) key
        (runSeg env key (item :: rest) idx links errors consec pool pend events) =
      runLoopAfter env moreReplies k
        (runSeg env k (item :: rest) idx links errors 0
          (addPoolKey (mark_key_as_failed pool key) k) (some ⟨idx, links, errors⟩)
          ((events ++ [Event.markFailed key]) ++ [Event.markValidNew k])) := by
  have h1 : runSeg env key (item :: rest) idx links errors consec pool pend events =
      SegOut.needKey idx (item :: rest) links errors (mark_key_as_failed pool key)
        (some ⟨idx, links, errors⟩) (events ++ [Event.markFailed key]) := by
    simp only [runSeg, hat]
    rw [if_neg (by simp [hs]), if_neg (by simp [hkv])]
  refine ⟨h1, ?_⟩
  rw [h1]
  rfl

/-- An environment where every upload reports an invalid credential. -/
def envKeyDead : Env := ⟨fun p => some p, fun _ _ _ => ⟨false, "", "bad key", false⟩⟩

theorem C3_snapshot_and_retry_witness :
    (runSeg envKeyDead "K0000000000" [("b", "pb")] 0 [] [] 0 initState none [] =
      SegOut.needKey 0 [("b", "pb")] [] [] (mark_key_as_failed initState "K0000000000")
        (some ⟨0, [], []⟩) ([] ++ [Event.markFailed "K0000000000"])) ∧
    runLoopAfter envKeyDead [some "K1111111111"] "K0000000000"
        (runSeg envKeyDead "K0000000000" [("b", "pb")] 0 [] [] 0 initState none []) =
      runLoopAfter envKeyDead [] "K1111111111"
        (runSeg envKeyDead "K1111111111" [("b", "pb")] 0 [] []  0
          (addPoolKey (mark_key_as_failed initState "K0000000000") "K1111111111")
          (some ⟨0, [], []⟩)
          (([] ++ [Event.markFailed "K0000000000"]) ++ [Event.markValidNew "K1111111111"])) :=
  C3_snapshot_and_retry envKeyDead "K0000000000" "K1111111111" ("b", "pb") [] 0 [] [] 0
    initState none [] [] ⟨false, "", "bad key", false⟩ (by decide) (by decide) (by decide)

/-! ## Order preservation (claim C7) -/

theorem runSeg_sub_finished (env : Env) (key : String) :
    ∀ (items : List (String × String)) (idx : Nat) (links : List (String × String))
      (errors : List String) (consec : Nat) (pool : PoolState) (pend : Option Snapshot)
      (events : List Event) (l : List (String × String)) (e : List String) (c : Nat)
      (p : PoolState) (pd : Option Snapshot) (ev : List Event),
      runSeg env key items idx links errors consec pool pend events =
        SegOut.finished l e c p pd ev →
      List.Sublist (l.map Prod.fst) (links.map Prod.fst ++ items.map Prod.fst) := by
  intro items
  induction items with
  | nil =>
    intro idx links errors consec pool pend events l e c p pd ev hseg
    simp only [runSeg] at hseg
    cases hseg
    simp
  | cons item rest ih =>
    intro idx links errors consec pool pend events l e c p pd ev hseg
    cases hat : attemptItem env key item with
    | none =>
      simp only [runSeg, hat] at hseg
      have H := ih (idx + 1) links _ consec pool pend events l e c p pd ev hseg
      refine H.trans ?_
      simp only [List.map_cons]
      exact (List.sublist_cons_self item.1 (rest.map Prod.fst)).append_left
        (links.map Prod.fst)
    | some r =>
      simp only [runSeg, hat] at hseg
      by_cases hs : r.success = true
      · rw [if_pos hs] at hseg
        by_cases h3 : 3 ≤ consec + 1
        · rw [if_pos h3] at hseg
          have H := ih (idx + 1) (links ++ [(item.1, r.url)]) errors (consec + 1) _
            pend _ l e c p pd ev hseg
          simpa using H
        · rw [if_neg h3] at hseg
          have H := ih (idx + 1) (links ++ [(item.1, r.url)]) errors (consec + 1) pool
            pend events l e c p pd ev hseg
          simpa using H
      · rw [if_neg hs] at hseg
        by_cases hkv : r.key_valid = true
        · rw [if_pos hkv] at hseg
          have H := ih (idx + 1) links _ 0 pool pend events l e c p pd ev hseg
          refine H.trans ?_
          simp only [List.map_cons]
          exact (List.sublist_cons_self item.1 (rest.map Prod.fst)).append_left
            (links.map Prod.fst)
        · rw [if_neg hkv] at hseg
          cases hseg

theorem runSeg_sub_needKey (env : Env) (key : String) :
    ∀ (items : List (String × String)) (idx : Nat) (links : List (String × String))
      (errors : List String) (consec : Nat) (pool : PoolState) (pend : Option Snapshot)
      (events : List Event) (fi : Nat) (rem l : List (String × String)) (e : List String)
      (p : PoolState) (pd : Option Snapshot) (ev : List Event),
      runSeg env key items idx links errors consec pool pend events =
        SegOut.needKey fi rem l e p pd ev →
      ∃ pre, items = pre ++ rem ∧
        List.Sublist (l.map Prod.fst) (links.map Prod.fst ++ pre.map Prod.fst) := by
  intro items
  induction items with
  | nil =>
    intro idx links errors consec pool pend events fi rem l e p pd ev hseg
    simp only [runSeg] at hseg
    cases hseg
  | cons item rest ih =>
    intro idx links errors consec pool pend events fi rem l e p pd ev hseg
    cases hat : attemptItem env key item with
    | none =>
      simp only [runSeg, hat] at hseg
      obtain ⟨pre, hpre, hsub⟩ := ih (idx + 1) links _ consec pool pend events fi rem
        l e p pd ev hseg
      refine ⟨item :: pre, by rw [hpre, List.cons_append], ?_⟩
      refine hsub.trans ?_
      simp only [List.map_cons]
      exact (List.sublist_cons_self item.1 (pre.map Prod.fst)).append_left
        (links.map Prod.fst)
    | some r =>
      simp only [runSeg, hat] at hseg
      by_cases hs : r.success = true
      · rw [if_pos hs] at hseg
        by_cases h3 : 3 ≤ consec + 1
        · rw [if_pos h3] at hseg
          obtain ⟨pre, hpre, hsub⟩ := ih (idx + 1) (links ++ [(item.1, r.url)]) errors
            (consec + 1) _ pend _ fi rem l e p pd ev hseg
          refine ⟨item :: pre, by rw [hpre, List.cons_append], ?_⟩
          simpa using hsub
        · rw [if_neg h3] at hseg
          obtain ⟨pre, hpre, hsub⟩ := ih (idx + 1) (links ++ [(item.1, r.url)]) errors
            (consec + 1) pool pend events fi rem l e p pd ev hseg
          refine ⟨item :: pre, by rw [hpre, List.cons_append], ?_⟩
          simpa using hsub
      · rw [if_neg hs] at hseg
        by_cases hkv : r.key_valid = true
        · rw [if_pos hkv] at hseg
          obtain ⟨pre, hpre, hsub⟩ := ih (idx + 1) links _ 0 pool pend events fi rem
            l e p pd ev hseg
          refine ⟨item :: pre, by rw [hpre, List.cons_append], ?_⟩
          refine hsub.trans ?_
          simp only [List.map_cons]
          exact (List.sublist_cons_self item.1 (pre.map Prod.fst)).append_left
            (links.map Prod.fst)
        · rw [if_neg hkv] at hseg
          cases hseg
          exact ⟨[], rfl, by simp⟩

theorem runLoop_links_sublist (env : Env) :
    ∀ (replies : List (Option String)) (key : String) (items : List (String × String))
      (idx : Nat) (links : List (String × String)) (errors : List String) (consec : Nat)
      (pool : PoolState) (pend : Option Snapshot) (events : List Event),
      List.Sublist
        ((runLoopAfter env replies key
            (runSeg env key items idx links errors consec pool pend events)).links.map
          Prod.fst)
        (links.map Prod.fst ++ items.map Prod.fst) := by
  intro replies
  induction replies with
  | nil =>
    intro key items idx links errors consec pool pend events
    cases hseg : runSeg env key items idx links errors consec pool pend events with
    | finished l e c p pd ev =>
      have H := runSeg_sub_finished env key items idx links errors consec pool pend
        events l e c p pd ev hseg
      simp only [runLoopAfter]
      by_cases hc : 0 < c
      · rw [if_pos hc]
        exact H
      · rw [if_neg hc]
        exact H
    | needKey fi rem l e p pd ev =>
      obtain ⟨pre, hpre, hsub⟩ := runSeg_sub_needKey env key items idx links errors
        consec pool pend events fi rem l e p pd ev hseg
      simp only [runLoopAfter]
      rw [hpre]
      refine hsub.trans ?_
      simp only [List.map_append]
      exact (List.sublist_append_left (pre.map Prod.fst) (rem.map Prod.fst)).append_left
        (links.map Prod.fst)
  | cons reply rest ih =>
    intro key items idx links errors consec pool pend events
    cases hseg : runSeg env key items idx links errors consec pool pend events with
    | finished l e c p pd ev =>
      have H := runSeg_sub_finished env key items idx links errors consec pool pend
        events l e c p pd ev hseg
      simp only [runLoopAfter]
      by_cases hc : 0 < c
      · rw [if_pos hc]
        exact H
      · rw [if_neg hc]
        exact H
    | needKey fi rem l e p pd ev =>
      obtain ⟨pre, hpre, hsub⟩ := runSeg_sub_needKey env key items idx links errors
        consec pool pend events fi rem l e p pd ev hseg
      cases reply with
      | none =>
        simp only [runLoopAfter]
        rw [hpre]
        refine hsub.trans ?_
        simp only [List.map_append]
        exact (List.sublist_append_left (pre.map Prod.fst) (rem.map Prod.fst)).append_left
          (links.map Prod.fst)
      | some k =>
        simp only [runLoopAfter]
        have IH := ih k rem fi l e 0 (addPoolKey p k) pd (ev ++ [Event.markValidNew k])
        refine IH.trans ?_
        rw [hpre]
        simp only [List.map_append]
        rw [← List.append_assoc]
        exact hsub.append (List.Sublist.refl (rem.map Prod.fst))

/-- C7. The `(name, url)` success list produced by the orchestrator — and
hence the image order of the gallery, since `handle_container` publishes
`[link for _, link in links]` — lists names in the case-insensitive
lexicographic order of the original item names, regardless of how many
credential-failure/resume events occur: the name sequence of the result is
a subsequence of the sorted batch and is itself sorted under the
case-insensitive order. -/
theorem C7_gallery_order (env : Env) (sources : List (String × String))
    (pool : PoolState) (replies : List (Option String)) :
    List.Sublist
      ((process_and_upload_images env sources pool replies).links.map Prod.fst)
      ((sortByName sources).map Prod.fst) ∧
    ((process_and_upload_images env sources pool replies).links.map Prod.fst).Pairwise
      nameKeyLe ∧
    galleryUrls (process_and_upload_images env sources pool replies).links =
      (process_and_upload_images env sources pool replies).links.map Prod.snd := by
  have hsorted : ((sortByName sources).map Prod.fst).Pairwise nameKeyLe := by
    rw [List.pairwise_map]
    exact (sortByName_sorted sources).imp (fun hab => hab)
  have hsub : List.Sublist
      ((process_and_upload_images env sources pool replies).links.map Prod.fst)
      ((sortByName sources).map Prod.fst) := by
    unfold process_and_upload_images
    by_cases h1 : pool.keys = []
    · rw [if_pos h1]
      exact List.nil_sublist _
    · rw [if_neg h1]
      by_cases h2 : get_current_imgbb_key pool = ""
      · simp only [h2, if_pos rfl]
        exact List.nil_sublist _
      · simp only [if_neg h2]
        have := runLoop_links_sublist env replies (get_current_imgbb_key pool)
          (sortByName sources) 0 [] [] 0 pool none []
        simpa using this
  exact ⟨hsub, hsorted.sublist hsub, rfl⟩

/-! ## Partial results on cancellation (claim C6) -/

/-- `image_sources[j]` in the sorted batch (out-of-range reads are never
used by the theorems below). -/
def itemAt (srt : List (String × String)) (i : Nat) : String × String := srt.getD i ("", "")

/-- Every success entry comes from an item strictly before position
`bound` of the sorted batch. -/
def attributedLinks (srt : List (String × String)) (bound : Nat)
    (links : List (String × String)) : Prop :=
  ∀ q ∈ links, ∃ j, j < bound ∧ q.1 = (itemAt srt j).1

/-- Every error entry is the decode error (line 287) or the item error
(line 337) of an item strictly before position `bound` of the sorted
batch. -/
def attributedErrors (srt : List (String × String)) (bound : Nat)
    (errors : List String) : Prop :=
  ∀ x ∈ errors, ∃ j, j < bound ∧
    (x = "No pude procesar " ++ (itemAt srt j).1 ∨
      ∃ s, x = (itemAt srt j).1 ++ ": " ++ s)

theorem attributedLinks_mono (srt : List (String × String)) (b b2 : Nat)
    (links : List (String × String)) (hb : b ≤ b2) (h : attributedLinks srt b links) :
    attributedLinks srt b2 links := by
  intro q hq
  obtain ⟨j, hj, he⟩ := h q hq
  exact ⟨j, lt_of_lt_of_le hj hb, he⟩

theorem attributedErrors_mono (srt : List (String × String)) (b b2 : Nat)
    (errors : List String) (hb : b ≤ b2) (h : attributedErrors srt b errors) :
    attributedErrors srt b2 errors := by
  intro x hx
  obtain ⟨j, hj, he⟩ := h x hx
  exact ⟨j, lt_of_lt_of_le hj hb, he⟩

theorem drop_eq_cons_getD (srt : List (String × String)) :
    ∀ (idx : Nat) (item : String × String) (rest : List (String × String)),
      srt.drop idx = item :: rest →
      idx < srt.length ∧ itemAt srt idx = item ∧ srt.drop (idx + 1) = rest := by
  induction srt with
  | nil =>
    intro idx item rest h
    simp at h
  | cons a tl ih =>
    intro idx item rest h
    cases idx with
    | zero =>
      simp only [List.drop_zero] at h
      cases h
      refine ⟨by simp, rfl, by simp⟩
    | succ n =>
      rw [List.drop_succ_cons] at h
      obtain ⟨h1, h2, h3⟩ := ih n item rest h
      refine ⟨by simpa using Nat.succ_lt_succ h1, ?_, ?_⟩
      · simpa [itemAt] using h2
      · rw [List.drop_succ_cons]
        exact h3

theorem runSeg_no_cancelled (env : Env) (key : String) :
    ∀ (items : List (String × String)) (idx : Nat) (links : List (String × String))
      (errors : List String) (consec : Nat) (pool : PoolState) (pend : Option Snapshot)
      (events : List Event),
      (∀ u, Event.cancelled u ∉ events) →
      ∀ u, Event.cancelled u ∉
        segEvents (runSeg env key items idx links errors consec pool pend events) := by
  intro items
  induction items with
  | nil => intro idx links errors consec pool pend events hev; exact hev
  | cons item rest ih =>
    intro idx links errors consec pool pend events hev
    cases hat : attemptItem env key item with
    | none =>
      simp only [runSeg, hat]
      exact ih (idx + 1) links _ consec pool pend events hev
    | some r =>
      simp only [runSeg, hat]
      by_cases hs : r.success = true
      · rw [if_pos hs]
        by_cases h3 : 3 ≤ consec + 1
        · rw [if_pos h3]
          refine ih (idx + 1) _ errors (consec + 1) _ pend _ ?_
          intro u hu
          rcases List.mem_append.mp hu with hu1 | hu2
          · exact hev u hu1
          · simp at hu2
        · rw [if_neg h3]
          exact ih (idx + 1) _ errors (consec + 1) pool pend events hev
      · rw [if_neg hs]
        by_cases hkv : r.key_valid = true
        · rw [if_pos hkv]
          exact ih (idx + 1) links _ 0 pool pend events hev
        · rw [if_neg hkv]
          intro u hu
          simp only [segEvents] at hu
          rcases List.mem_append.mp hu with hu1 | hu2
          · exact hev u hu1
          · simp at hu2

theorem runSeg_needKey_attr (env : Env) (key : String) (srt : List (String × String)) :
    ∀ (items : List (String × String)) (idx : Nat) (links : List (String × String))
      (errors : List String) (consec : Nat) (pool : PoolState) (pend : Option Snapshot)
      (events : List Event) (fi : Nat) (rem l : List (String × String)) (e : List String)
      (p : PoolState) (pd : Option Snapshot) (ev : List Event),
      runSeg env key items idx links errors consec pool pend events =
        SegOut.needKey fi rem l e p pd ev →
      srt.drop idx = items →
      attributedLinks srt idx links →
      attributedErrors srt idx errors →
      fi < srt.length ∧ srt.drop fi = rem ∧ attributedLinks srt fi l ∧
        attributedErrors srt fi e := by
  intro items
  induction items with
  | nil =>
    intro idx links errors consec pool pend events fi rem l e p pd ev hseg
    simp only [runSeg] at hseg
    cases hseg
  | cons item rest ih =>
    intro idx links errors consec pool pend events fi rem l e p pd ev hseg hdrop hl he
    obtain ⟨hidx, hitem, hdrop1⟩ := drop_eq_cons_getD srt idx item rest hdrop
    cases hat : attemptItem env key item with
    | none =>
      simp only [runSeg, hat] at hseg
      refine ih (idx + 1) links _ consec pool pend events fi rem l e p pd ev hseg hdrop1
        (attributedLinks_mono srt idx (idx + 1) links (Nat.le_succ idx) hl) ?_
      intro x hx
      rcases List.mem_append.mp hx with hx1 | hx2
      · obtain ⟨j, hj, hje⟩ := he x hx1
        exact ⟨j, Nat.lt_succ_of_lt hj, hje⟩
      · simp only [List.mem_singleton] at hx2
        subst hx2
        exact ⟨idx, Nat.lt_succ_self idx, Or.inl (by rw [hitem])⟩
    | some r =>
      simp only [runSeg, hat] at hseg
      by_cases hs : r.success = true
      · rw [if_pos hs] at hseg
        have hlinks : attributedLinks srt (idx + 1) (links ++ [(item.1, r.url)]) := by
          intro q hq
          rcases List.mem_append.mp hq with hq1 | hq2
          · obtain ⟨j, hj, hje⟩ := hl q hq1
            exact ⟨j, Nat.lt_succ_of_lt hj, hje⟩
          · simp only [List.mem_singleton] at hq2
            subst hq2
            exact ⟨idx, Nat.lt_succ_self idx, by rw [hitem]⟩
        have herrs : attributedErrors srt (idx + 1) errors :=
          attributedErrors_mono srt idx (idx + 1) errors (Nat.le_succ idx) he
        by_cases h3 : 3 ≤ consec + 1
        · rw [if_pos h3] at hseg
          exact ih (idx + 1) _ errors (consec + 1) _ pend _ fi rem l e p pd ev hseg
            hdrop1 hlinks herrs
        · rw [if_neg h3] at hseg
          exact ih (idx + 1) _ errors (consec + 1) pool pend events fi rem l e p pd ev
            hseg hdrop1 hlinks herrs
      · rw [if_neg hs] at hseg
        by_cases hkv : r.key_valid = true
        · rw [if_pos hkv] at hseg
          refine ih (idx + 1) links _ 0 pool pend events fi rem l e p pd ev hseg hdrop1
            (attributedLinks_mono srt idx (idx + 1) links (Nat.le_succ idx) hl) ?_
          intro x hx
          rcases List.mem_append.mp hx with hx1 | hx2
          · obtain ⟨j, hj, hje⟩ := he x hx1
            exact ⟨j, Nat.lt_succ_of_lt hj, hje⟩
          · simp only [List.mem_singleton] at hx2
            subst hx2
            exact ⟨idx, Nat.lt_succ_self idx, Or.inr ⟨r.error, by rw [hitem]⟩⟩
        · rw [if_neg hkv] at hseg
          cases hseg
          exact ⟨hidx, hdrop, hl, he⟩

theorem runLoop_cancel_attr (env : Env) (srt : List (String × String)) :
    ∀ (replies : List (Option String)) (key : String) (items : List (String × String))
      (idx : Nat) (links : List (String × String)) (errors : List String) (consec : Nat)
      (pool : PoolState) (pend : Option Snapshot) (events : List Event),
      srt.drop idx = items →
      attributedLinks srt idx links →
      attributedErrors srt idx errors →
      (∀ u, Event.cancelled u ∉ events) →
      ∀ t, Event.cancelled t ∈
          (runLoopAfter env replies key
            (runSeg env key items idx links errors consec pool pend events)).events →
        attributedLinks srt t
            (runLoopAfter env replies key
              (runSeg env key items idx links errors consec pool pend events)).links ∧
          attributedErrors srt t
            (runLoopAfter env replies key
              (runSeg env key items idx links errors consec pool pend events)).errors := by
  intro replies
  induction replies with
  | nil =>
    intro key items idx links errors consec pool pend events hdrop hl he hev t ht
    have hnc := runSeg_no_cancelled env key items idx links errors consec pool pend
      events hev
    revert ht
    cases hseg : runSeg env key items idx links errors consec pool pend events with
    | finished l e c p pd ev =>
      rw [hseg] at hnc
      simp only [runLoopAfter]
      intro ht
      exfalso
      by_cases hc : 0 < c
      · rw [if_pos hc] at ht
        rcases List.mem_append.mp ht with ht1 | ht2
        · exact hnc t ht1
        · simp at ht2
      · rw [if_neg hc] at ht
        exact hnc t ht
    | needKey fi rem l e p pd ev =>
      rw [hseg] at hnc
      obtain ⟨hfi, hrem, hla, hea⟩ := runSeg_needKey_attr env key srt items idx links
        errors consec pool pend events fi rem l e p pd ev hseg hdrop hl he
      simp only [runLoopAfter]
      intro ht
      rcases List.mem_append.mp ht with ht1 | ht2
      · exact absurd ht1 (hnc t)
      · simp only [List.mem_singleton, Event.cancelled.injEq] at ht2
        subst ht2
        exact ⟨hla, hea⟩
  | cons reply rest ih =>
    intro key items idx links errors consec pool pend events hdrop hl he hev t
    have hnc := runSeg_no_cancelled env key items idx links errors consec pool pend
      events hev
    cases hseg : runSeg env key items idx links errors consec pool pend events with
    | finished l e c p pd ev =>
      rw [hseg] at hnc
      simp only [runLoopAfter]
      intro ht
      exfalso
      by_cases hc : 0 < c
      · rw [if_pos hc] at ht
        rcases List.mem_append.mp ht with ht1 | ht2
        · exact hnc t ht1
        · simp at ht2
      · rw [if_neg hc] at ht
        exact hnc t ht
    | needKey fi rem l e p pd ev =>
      rw [hseg] at hnc
      obtain ⟨hfi, hrem, hla, hea⟩ := runSeg_needKey_attr env key srt items idx links
        errors consec pool pend events fi rem l e p pd ev hseg hdrop hl he
      cases reply with
      | none =>
        simp only [runLoopAfter]
        intro ht
        rcases List.mem_append.mp ht with ht1 | ht2
        · exact absurd ht1 (hnc t)
        · simp only [List.mem_singleton, Event.cancelled.injEq] at ht2
          subst ht2
          exact ⟨hla, hea⟩
      | some k =>
        simp only [runLoopAfter]
        refine ih k rem fi l e 0 (addPoolKey p k) pd (ev ++ [Event.markValidNew k])
          hrem hla hea ?_ t
        intro u hu
        rcases List.mem_append.mp hu with hu1 | hu2
        · exact hnc u hu1
        · simp at hu2

/-- C6. If the solicitation for a suspended job ends by user cancel or
timeout (`request_new_key` returns `None`; an exhausted or `none` entry of
the reply trace), the orchestrator returns normally — the model is a total
function, mirroring the plain `return links, errors` of lines 321-324 —
with exactly the successes accumulated strictly before the triggering
item, and an error list containing no entry for the triggering item or any
item not yet attempted: every returned entry is attributed to an item
strictly before the cancellation index. -/
theorem C6_cancel_partial_results (env : Env) (sources : List (String × String))
    (pool : PoolState) (replies : List (Option String)) (t : Nat)
    (h : Event.cancelled t ∈ (process_and_upload_images env sources pool replies).events) :
    attributedLinks (sortByName sources) t
        (process_and_upload_images env sources pool replies).links ∧
      attributedErrors (sortByName sources) t
        (process_and_upload_images env sources pool replies).errors := by
  revert h
  unfold process_and_upload_images
  by_cases h1 : pool.keys = []
  · rw [if_pos h1]
    intro h
    simp at h
  · rw [if_neg h1]
    by_cases h2 : get_current_imgbb_key pool = ""
    · simp only [h2, if_pos rfl]
      intro h
      simp at h
    · simp only [if_neg h2]
      intro h
      exact runLoop_cancel_attr env (sortByName sources) replies
        (get_current_imgbb_key pool) (sortByName sources) 0 [] [] 0 pool none []
        (List.drop_zero _) (by intro q hq; simp at hq) (by intro x hx; simp at hx)
        (by intro u hu; simp at hu) t h

/-- An environment whose uploads succeed for item `a.jpg` and report an
invalid credential for every other item, under every key. -/
def envTriggerB : Env :=
  ⟨fun p => some p,
   fun _ name _ =>
     if name = "a.jpg" then ⟨true, "u-a", "", true⟩
     else ⟨false, "", "API key inválida o expirada", false⟩⟩

/-- Witness for C6: `a.jpg` succeeds, `b.png` triggers a credential
failure, the reply trace is empty (timeout), and the returned results are
attributed strictly before the triggering index 1. -/
theorem C6_cancel_partial_results_witness :
    attributedLinks (sortByName [("a.jpg", "pa"), ("b.png", "pb")]) 1
        (process_and_upload_images envTriggerB [("a.jpg", "pa"), ("b.png", "pb")]
          (initialize_imgbb_keys "oldaaaaaaa") []).links ∧
      attributedErrors (sortByName [("a.jpg", "pa"), ("b.png", "pb")]) 1
        (process_and_upload_images envTriggerB [("a.jpg", "pa"), ("b.png", "pb")]
          (initialize_imgbb_keys "oldaaaaaaa") []).errors :=
  C6_cancel_partial_results envTriggerB [("a.jpg", "pa"), ("b.png", "pb")]
    (initialize_imgbb_keys "oldaaaaaaa") [] 1 (by decide)

/-! ## Transparency of the mid-batch credential swap (claim C4)

The returned `links` and `errors` of a run depend only on the processed
items, the accumulated lists, the current key and the reply trace — not on
the absolute index, the success counter, the pool or the event trace.
Together with the step-by-step agreement of the two runs on the prefix
before the triggering item, this makes the suspend/solicit/resume cycle
invisible in the result set. -/

def segIsNeedKey : SegOut → Bool
  | SegOut.finished _ _ _ _ _ _ => false
  | SegOut.needKey _ _ _ _ _ _ _ => true

def segRem : SegOut → List (String × String)
  | SegOut.finished _ _ _ _ _ _ => []
  | SegOut.needKey _ rem _ _ _ _ _ => rem

theorem runSeg_agree (env : Env) (key : String) :
    ∀ (items links : List (String × String)) (errors : List String)
      (idx1 idx2 c1 c2 : Nat) (p1 p2 : PoolState) (pd1 pd2 : Option Snapshot)
      (ev1 ev2 : List Event),
      segIsNeedKey (runSeg env key items idx1 links errors c1 p1 pd1 ev1) =
          segIsNeedKey (runSeg env key items idx2 links errors c2 p2 pd2 ev2) ∧
        segLinks (runSeg env key items idx1 links errors c1 p1 pd1 ev1) =
          segLinks (runSeg env key items idx2 links errors c2 p2 pd2 ev2) ∧
        segErrors (runSeg env key items idx1 links errors c1 p1 pd1 ev1) =
          segErrors (runSeg env key items idx2 links errors c2 p2 pd2 ev2) ∧
        segRem (runSeg env key items idx1 links errors c1 p1 pd1 ev1) =
          segRem (runSeg env key items idx2 links errors c2 p2 pd2 ev2) := by
  intro items
  induction items with
  | nil =>
    intro links errors idx1 idx2 c1 c2 p1 p2 pd1 pd2 ev1 ev2
    simp only [runSeg]
    exact ⟨rfl, rfl, rfl, rfl⟩
  | cons item rest ih =>
    intro links errors idx1 idx2 c1 c2 p1 p2 pd1 pd2 ev1 ev2
    cases hat : attemptItem env key item with
    | none =>
      simp only [runSeg, hat]
      exact ih links _ (idx1 + 1) (idx2 + 1) c1 c2 p1 p2 pd1 pd2 ev1 ev2
    | some r =>
      simp only [runSeg, hat]
      by_cases hs : r.success = true
      · rw [if_pos hs, if_pos hs]
        by_cases h31 : 3 ≤ c1 + 1
        · rw [if_pos h31]
          by_cases h32 : 3 ≤ c2 + 1
          · rw [if_pos h32]
            exact ih _ errors (idx1 + 1) (idx2 + 1) (c1 + 1) (c2 + 1) _ _ pd1 pd2 _ _
          · rw [if_neg h32]
            exact ih _ errors (idx1 + 1) (idx2 + 1) (c1 + 1) (c2 + 1) _ p2 pd1 pd2 _ ev2
        · rw [if_neg h31]
          by_cases h32 : 3 ≤ c2 + 1
          · rw [if_pos h32]
            exact ih _ errors (idx1 + 1) (idx2 + 1) (c1 + 1) (c2 + 1) p1 _ pd1 pd2 ev1 _
          · rw [if_neg h32]
            exact ih _ errors (idx1 + 1) (idx2 + 1) (c1 + 1) (c2 + 1) p1 p2 pd1 pd2 ev1 ev2
      · rw [if_neg hs, if_neg hs]
        by_cases hkv : r.key_valid = true
        · rw [if_pos hkv, if_pos hkv]
          exact ih links _ (idx1 + 1) (idx2 + 1) 0 0 p1 p2 pd1 pd2 ev1 ev2
        · rw [if_neg hkv, if_neg hkv]
          exact ⟨rfl, rfl, rfl, rfl⟩

theorem runLoop_agree (env : Env) :
    ∀ (replies : List (Option String)) (key : String) (s1 s2 : SegOut),
      segIsNeedKey s1 = segIsNeedKey s2 → segLinks s1 = segLinks s2 →
      segErrors s1 = segErrors s2 → segRem s1 = segRem s2 →
      (runLoopAfter env replies key s1).links = (runLoopAfter env replies key s2).links ∧
        (runLoopAfter env replies key s1).errors =
          (runLoopAfter env replies key s2).errors := by
  intro replies
  induction replies with
  | nil =>
    intro key s1 s2 hk hl he hr
    cases s1 with
    | finished l1 e1 c1 p1 pd1 ev1 =>
      cases s2 with
      | finished l2 e2 c2 p2 pd2 ev2 =>
        simp only [segLinks] at hl
        simp only [segErrors] at he
        subst hl
        subst he
        simp only [runLoopAfter]
        by_cases hc1 : 0 < c1
        · rw [if_pos hc1]
          by_cases hc2 : 0 < c2
          · rw [if_pos hc2]
            exact ⟨rfl, rfl⟩
          · rw [if_neg hc2]
            exact ⟨rfl, rfl⟩
        · rw [if_neg hc1]
          by_cases hc2 : 0 < c2
          · rw [if_pos hc2]
            exact ⟨rfl, rfl⟩
          · rw [if_neg hc2]
            exact ⟨rfl, rfl⟩
      | needKey fi2 rem2 l2 e2 p2 pd2 ev2 =>
        simp [segIsNeedKey] at hk
    | needKey fi1 rem1 l1 e1 p1 pd1 ev1 =>
      cases s2 with
      | finished l2 e2 c2 p2 pd2 ev2 =>
        simp [segIsNeedKey] at hk
      | needKey fi2 rem2 l2 e2 p2 pd2 ev2 =>
        simp only [segLinks] at hl
        simp only [segErrors] at he
        subst hl
        subst he
        simp only [runLoopAfter]
        exact ⟨by trivial, by trivial⟩
  | cons reply rest ih =>
    intro key s1 s2 hk hl he hr
    cases s1 with
    | finished l1 e1 c1 p1 pd1 ev1 =>
      cases s2 with
      | finished l2 e2 c2 p2 pd2 ev2 =>
        simp only [segLinks] at hl
        simp only [segErrors] at he
        subst hl
        subst he
        simp only [runLoopAfter]
        by_cases hc1 : 0 < c1
        · rw [if_pos hc1]
          by_cases hc2 : 0 < c2
          · rw [if_pos hc2]
            exact ⟨rfl, rfl⟩
          · rw [if_neg hc2]
            exact ⟨rfl, rfl⟩
        · rw [if_neg hc1]
          by_cases hc2 : 0 < c2
          · rw [if_pos hc2]
            exact ⟨rfl, rfl⟩
          · rw [if_neg hc2]
            exact ⟨rfl, rfl⟩
      | needKey fi2 rem2 l2 e2 p2 pd2 ev2 =>
        simp [segIsNeedKey] at hk
    | needKey fi1 rem1 l1 e1 p1 pd1 ev1 =>
      cases s2 with
      | finished l2 e2 c2 p2 pd2 ev2 =>
        simp [segIsNeedKey] at hk
      | needKey fi2 rem2 l2 e2 p2 pd2 ev2 =>
        simp only [segLinks] at hl
        simp only [segErrors] at he
        simp only [segRem] at hr
        subst hl
        subst he
        subst hr
        cases reply with
        | none =>
          simp only [runLoopAfter]
          exact ⟨by trivial, by trivial⟩
        | some k =>
          simp only [runLoopAfter]
          obtain ⟨hk2, hl2, he2, hr2⟩ := runSeg_agree env k rem1 l1 e1 fi1 fi2 0 0
            (addPoolKey p1 k) (addPoolKey p2 k) pd1 pd2
            (ev1 ++ [Event.markValidNew k]) (ev2 ++ [Event.markValidNew k])
          exact ih k _ _ hk2 hl2 he2 hr2

theorem runs_swap_agree (env : Env) (oldKey newKey : String) :
    ∀ (pre : List (String × String)) (trigger : String × String)
      (tail : List (String × String)) (idx1 idx2 c1 c2 : Nat)
      (links : List (String × String)) (errors : List String) (p1 p2 : PoolState)
      (pd1 pd2 : Option Snapshot) (ev1 ev2 : List Event),
      (∀ it ∈ pre, attemptItem env oldKey it = attemptItem env newKey it) →
      (∀ it ∈ pre, ∀ o, attemptItem env oldKey it = some o → o.key_valid = true) →
      (∃ o, attemptItem env oldKey trigger = some o ∧ o.success = false ∧
        o.key_valid = false) →
      (runLoopAfter env [some newKey] oldKey
          (runSeg env oldKey (pre ++ trigger :: tail) idx1 links errors c1 p1 pd1
            ev1)).links =
        (runLoopAfter env [] newKey
          (runSeg env newKey (pre ++ trigger :: tail) idx2 links errors c2 p2 pd2
            ev2)).links ∧
      (runLoopAfter env [some newKey] oldKey
          (runSeg env oldKey (pre ++ trigger :: tail) idx1 links errors c1 p1 pd1
            ev1)).errors =
        (runLoopAfter env [] newKey
          (runSeg env newKey (pre ++ trigger :: tail) idx2 links errors c2 p2 pd2
            ev2)).errors := by
  intro pre
  induction pre with
  | nil =>
    intro trigger tail idx1 idx2 c1 c2 links errors p1 p2 pd1 pd2 ev1 ev2 hpre hval htrig
    obtain ⟨o, hato, hsucc, hkv⟩ := htrig
    have e1 : runSeg env oldKey ([] ++ trigger :: tail) idx1 links errors c1 p1 pd1 ev1 =
        SegOut.needKey idx1 (trigger :: tail) links errors
          (mark_key_as_failed p1 oldKey) (some ⟨idx1, links, errors⟩)
          (ev1 ++ [Event.markFailed oldKey]) := by
      simp only [List.nil_append, runSeg, hato]
      rw [if_neg (by simp [hsucc]), if_neg (by simp [hkv])]
    rw [e1]
    have e2 : runLoopAfter env [some newKey] oldKey
        (SegOut.needKey idx1 (trigger :: tail) links errors
          (mark_key_as_failed p1 oldKey) (some ⟨idx1, links, errors⟩)
          (ev1 ++ [Event.markFailed oldKey])) =
        runLoopAfter env [] newKey
          (runSeg env newKey (trigger :: tail) idx1 links errors 0
            (addPoolKey (mark_key_as_failed p1 oldKey) newKey)
            (some ⟨idx1, links, errors⟩)
            ((ev1 ++ [Event.markFailed oldKey]) ++ [Event.markValidNew newKey])) := rfl
    rw [e2]
    obtain ⟨hk2, hl2, he2, hr2⟩ := runSeg_agree env newKey (trigger :: tail) links errors
      idx1 idx2 0 c2 (addPoolKey (mark_key_as_failed p1 oldKey) newKey) p2
      (some ⟨idx1, links, errors⟩) pd2
      ((ev1 ++ [Event.markFailed oldKey]) ++ [Event.markValidNew newKey]) ev2
    exact runLoop_agree env [] newKey _ _ hk2 hl2 he2 hr2
  | cons it pre ih =>
    intro trigger tail idx1 idx2 c1 c2 links errors p1 p2 pd1 pd2 ev1 ev2 hpre hval htrig
    have hpreh : attemptItem env oldKey it = attemptItem env newKey it :=
      hpre it (List.mem_cons_self it pre)
    have hpret : ∀ x ∈ pre, attemptItem env oldKey x = attemptItem env newKey x :=
      fun x hx => hpre x (List.mem_cons_of_mem it hx)
    have hvalt : ∀ x ∈ pre, ∀ o, attemptItem env oldKey x = some o → o.key_valid = true :=
      fun x hx => hval x (List.mem_cons_of_mem it hx)
    cases hat : attemptItem env oldKey it with
    | none =>
      have hat2 : attemptItem env newKey it = none := by rw [← hpreh]; exact hat
      have e1 : runSeg env oldKey ((it :: pre) ++ trigger :: tail) idx1 links errors c1
          p1 pd1 ev1 =
          runSeg env oldKey (pre ++ trigger :: tail) (idx1 + 1) links
            (errors ++ ["No pude procesar " ++ it.1]) c1 p1 pd1 ev1 := by
        simp only [List.cons_append, runSeg, hat]
        rfl
      have e2 : runSeg env newKey ((it :: pre) ++ trigger :: tail) idx2 links errors c2
          p2 pd2 ev2 =
          runSeg env newKey (pre ++ trigger :: tail) (idx2 + 1) links
            (errors ++ ["No pude procesar " ++ it.1]) c2 p2 pd2 ev2 := by
        simp only [List.cons_append, runSeg, hat2]
        rfl
      rw [e1, e2]
      exact ih trigger tail (idx1 + 1) (idx2 + 1) c1 c2 links _ p1 p2 pd1 pd2 ev1 ev2
        hpret hvalt htrig
    | some o =>
      have hat2 : attemptItem env newKey it = some o := by rw [← hpreh]; exact hat
      have hkv : o.key_valid = true := hval it (List.mem_cons_self it pre) o hat
      by_cases hs : o.success = true
      · by_cases h31 : 3 ≤ c1 + 1
        · by_cases h32 : 3 ≤ c2 + 1
          · have e1 : runSeg env oldKey ((it :: pre) ++ trigger :: tail) idx1 links
                errors c1 p1 pd1 ev1 =
                runSeg env oldKey (pre ++ trigger :: tail) (idx1 + 1)
                  (links ++ [(it.1, o.url)]) errors (c1 + 1)
                  (mark_key_as_valid p1 oldKey) pd1
                  (ev1 ++ [Event.markValidLoop oldKey (c1 + 1)]) := by
              simp only [List.cons_append, runSeg, hat]
              rw [if_pos hs, if_pos h31]
              rfl
            have e2 : runSeg env newKey ((it :: pre) ++ trigger :: tail) idx2 links
                errors c2 p2 pd2 ev2 =
                runSeg env newKey (pre ++ trigger :: tail) (idx2 + 1)
                  (links ++ [(it.1, o.url)]) errors (c2 + 1)
                  (mark_key_as_valid p2 newKey) pd2
                  (ev2 ++ [Event.markValidLoop newKey (c2 + 1)]) := by
              simp only [List.cons_append, runSeg, hat2]
              rw [if_pos hs, if_pos h32]
              rfl
            rw [e1, e2]
            exact ih trigger tail (idx1 + 1) (idx2 + 1) (c1 + 1) (c2 + 1) _ errors _ _
              pd1 pd2 _ _ hpret hvalt htrig
          · have e1 : runSeg env oldKey ((it :: pre) ++ trigger :: tail) idx1 links
                errors c1 p1 pd1 ev1 =
                runSeg env oldKey (pre ++ trigger :: tail) (idx1 + 1)
                  (links ++ [(it.1, o.url)]) errors (c1 + 1)
                  (mark_key_as_valid p1 oldKey) pd1
                  (ev1 ++ [Event.markValidLoop oldKey (c1 + 1)]) := by
              simp only [List.cons_append, runSeg, hat]
              rw [if_pos hs, if_pos h31]
              rfl
            have e2 : runSeg env newKey ((it :: pre) ++ trigger :: tail) idx2 links
                errors c2 p2 pd2 ev2 =
                runSeg env newKey (pre ++ trigger :: tail) (idx2 + 1)
                  (links ++ [(it.1, o.url)]) errors (c2 + 1) p2 pd2 ev2 := by
              simp only [List.cons_append, runSeg, hat2]
              rw [if_pos hs, if_neg h32]
              rfl
            rw [e1, e2]
            exact ih trigger tail (idx1 + 1) (idx2 + 1) (c1 + 1) (c2 + 1) _ errors _ p2
              pd1 pd2 _ ev2 hpret hvalt htrig
        · by_cases h32 : 3 ≤ c2 + 1
          · have e1 : runSeg env oldKey ((it :: pre) ++ trigger :: tail) idx1 links
                errors c1 p1 pd1 ev1 =
                runSeg env oldKey (pre ++ trigger :: tail) (idx1 + 1)
                  (links ++ [(it.1, o.url)]) errors (c1 + 1) p1 pd1 ev1 := by
              simp only [List.cons_append, runSeg, hat]
              rw [if_pos hs, if_neg h31]
              rfl
            have e2 : runSeg env newKey ((it :: pre) ++ trigger :: tail) idx2 links
                errors c2 p2 pd2 ev2 =
                runSeg env newKey (pre ++ trigger :: tail) (idx2 + 1)
                  (links ++ [(it.1, o.url)]) errors (c2 + 1)
                  (mark_key_as_valid p2 newKey) pd2
                  (ev2 ++ [Event.markValidLoop newKey (c2 + 1)]) := by
              simp only [List.cons_append, runSeg, hat2]
              rw [if_pos hs, if_pos h32]
              rfl
            rw [e1, e2]
            exact ih trigger tail (idx1 + 1) (idx2 + 1) (c1 + 1) (c2 + 1) _ errors p1 _
              pd1 pd2 ev1 _ hpret hvalt htrig
          · have e1 : runSeg env oldKey ((it :: pre) ++ trigger :: tail) idx1 links
                errors c1 p1 pd1 ev1 =
                runSeg env oldKey (pre ++ trigger :: tail) (idx1 + 1)
                  (links ++ [(it.1, o.url)]) errors (c1 + 1) p1 pd1 ev1 := by
              simp only [List.cons_append, runSeg, hat]
              rw [if_pos hs, if_neg h31]
              rfl
            have e2 : runSeg env newKey ((it :: pre) ++ trigger :: tail) idx2 links
                errors c2 p2 pd2 ev2 =
                runSeg env newKey (pre ++ trigger :: tail) (idx2 + 1)
                  (links ++ [(it.1, o.url)]) errors (c2 + 1) p2 pd2 ev2 := by
              simp only [List.cons_append, runSeg, hat2]
              rw [if_pos hs, if_neg h32]
              rfl
            rw [e1, e2]
            exact ih trigger tail (idx1 + 1) (idx2 + 1) (c1 + 1) (c2 + 1) _ errors p1 p2
              pd1 pd2 ev1 ev2 hpret hvalt htrig
      · have e1 : runSeg env oldKey ((it :: pre) ++ trigger :: tail) idx1 links errors
            c1 p1 pd1 ev1 =
            runSeg env oldKey (pre ++ trigger :: tail) (idx1 + 1) links
              (errors ++ [it.1 ++ ": " ++ o.error]) 0 p1 pd1 ev1 := by
          simp only [List.cons_append, runSeg, hat]
          rw [if_neg hs, if_pos hkv]
          rfl
        have e2 : runSeg env newKey ((it :: pre) ++ trigger :: tail) idx2 links errors
            c2 p2 pd2 ev2 =
            runSeg env newKey (pre ++ trigger :: tail) (idx2 + 1) links
              (errors ++ [it.1 ++ ": " ++ o.error]) 0 p2 pd2 ev2 := by
          simp only [List.cons_append, runSeg, hat2]
          rw [if_neg hs, if_pos hkv]
          rfl
        rw [e1, e2]
        exact ih trigger tail (idx1 + 1) (idx2 + 1) 0 0 links _ p1 p2 pd1 pd2 ev1 ev2
          hpret hvalt htrig

/-- C4. For every batch and every point at which one mid-batch credential
swap occurs (the sorted batch splits as `pre ++ trigger :: tail`, every
item of `pre` gets the same outcome under both credentials and none of
those outcomes is a credential failure, and `trigger` fails under the old
credential with the credential-invalid classification), the success list —
and the error list — returned by the orchestrator with the swap equals the
one returned by a run of the same batch with no swap in which the final
credential is used throughout.  List equality is proved, so in particular
the success sets are equal: resumption is transparent to the result set. -/
theorem C4_swap_transparent (env : Env) (sources : List (String × String))
    (poolA poolB : PoolState) (oldKey newKey : String)
    (pre tail : List (String × String)) (trigger : String × String)
    (hsplit : sortByName sources = pre ++ trigger :: tail)
    (hA1 : ¬ poolA.keys = []) (hA2 : get_current_imgbb_key poolA = oldKey)
    (hA3 : ¬ oldKey = "")
    (hB1 : ¬ poolB.keys = []) (hB2 : get_current_imgbb_key poolB = newKey)
    (hB3 : ¬ newKey = "")
    (hpre : ∀ it ∈ pre, attemptItem env oldKey it = attemptItem env newKey it)
    (hval : ∀ it ∈ pre, ∀ o, attemptItem env oldKey it = some o → o.key_valid = true)
    (htrig : ∃ o, attemptItem env oldKey trigger = some o ∧ o.success = false ∧
      o.key_valid = false) :
    (process_and_upload_images env sources poolA [some newKey]).links =
      (process_and_upload_images env sources poolB []).links ∧
    (process_and_upload_images env sources poolA [some newKey]).errors =
      (process_and_upload_images env sources poolB []).errors := by
  unfold process_and_upload_images
  rw [if_neg hA1, if_neg hB1]
  simp only [hA2, hB2, if_neg hA3, if_neg hB3, hsplit]
  exact runs_swap_agree env oldKey newKey pre trigger tail 0 0 0 0 [] [] poolA poolB
    none none [] [] hpre hval htrig

/-- An environment for the C4 witness: item `a.jpg` succeeds under every
key, everything else succeeds only under the replacement key. -/
def envSwap : Env :=
  ⟨fun p => some p,
   fun _ name key =>
     if name = "a.jpg" then ⟨true, "u-a", "", true⟩
     else if key = "newbbbbbbb" then ⟨true, "u-" ++ name, "", true⟩
     else ⟨false, "", "API key inválida o expirada", false⟩⟩

/-- Witness for C4: a two-item batch where `b.png` triggers the swap; the
swapped run and the run under the final key alone return the same links
and errors. -/
theorem C4_swap_transparent_witness :
    (process_and_upload_images envSwap [("a.jpg", "pa"), ("b.png", "pb")]
        (initialize_imgbb_keys "oldaaaaaaa") [some "newbbbbbbb"]).links =
      (process_and_upload_images envSwap [("a.jpg", "pa"), ("b.png", "pb")]
        (initialize_imgbb_keys "newbbbbbbb") []).links ∧
    (process_and_upload_images envSwap [("a.jpg", "pa"), ("b.png", "pb")]
        (initialize_imgbb_keys "oldaaaaaaa") [some "newbbbbbbb"]).errors =
      (process_and_upload_images envSwap [("a.jpg", "pa"), ("b.png", "pb")]
        (initialize_imgbb_keys "newbbbbbbb") []).errors :=
  C4_swap_transparent envSwap [("a.jpg", "pa"), ("b.png", "pb")]
    (initialize_imgbb_keys "oldaaaaaaa") (initialize_imgbb_keys "newbbbbbbb")
    "oldaaaaaaa" "newbbbbbbb" [("a.jpg", "pa")] [] ("b.png", "pb")
    (by decide) (by decide) (by decide) (by decide) (by decide) (by decide) (by decide)
    (by decide)
    (by intro it hit o hato
        simp only [List.mem_singleton] at hit
        subst hit
        cases hato
        rfl)
    ⟨⟨false, "", "API key inválida o expirada", false⟩, by decide, rfl, rfl⟩
